import Mathlib

/-!
Verification of the batch-operations engine (`batch-operations.js`).

The engine is shallowly embedded: JavaScript values that the handlers inspect
are modelled by `JSVal`; collaborator calls (repository / processor) are pure
functions returning `Except String` (an `.error` models a thrown exception);
the asynchronous scheduler is modelled by its deterministic data flow, with
batch-completion order exposed as an explicit parameter of the slot-write
model (`slotFold` / `parallelResults`).
-/

namespace BatchOps

/-- A JavaScript value, as far as the engine inspects one: numbers, strings,
booleans, `null`, `undefined` and objects (association lists of fields).
`NaN` and other exotica are not needed by any code path modelled here. -/
inductive JSVal where
  | num (n : Int)
  | str (s : String)
  | bool (b : Bool)
  | null
  | undefined
  | obj (fields : List (String × JSVal))

/-- JavaScript truthiness of a `JSVal` (`!v` in the source is `!v.truthy`). -/
def JSVal.truthy : JSVal → Bool
  | .num n => n != 0
  | .str s => s != ""
  | .bool b => b
  | .null => false
  | .undefined => false
  | .obj _ => true

/-- Property access `v[f]`: throws a `TypeError` on `null`/`undefined`,
returns the field (or `undefined`) on objects, and `undefined` on other
primitives — exactly the cases JavaScript distinguishes. -/
def JSVal.getField : JSVal → String → Except String JSVal
  | .null, f => .error ("Cannot read properties of null (reading " ++ f ++ ")")
  | .undefined, f => .error ("Cannot read properties of undefined (reading " ++ f ++ ")")
  | .obj fields, f => .ok ((fields.lookup f).getD .undefined)
  | _, _ => .ok .undefined

/-- The check `typeof v === "object"` (true for objects and for `null`). -/
def JSVal.isObjectType : JSVal → Bool
  | .obj _ => true
  | .null => true
  | _ => false

/-- Outcome of a caller-supplied `validateItem` function: returned exactly
`true`, returned a string, or returned any other value. -/
inductive ValidationOutcome where
  | ok
  | msg (s : String)
  | other

/-- One per-item result, `{success, result?, error?, id?, item}` in the
source (`id` is set only by the delete handler's success path). -/
structure ItemResult where
  success : Bool
  result : Option JSVal := none
  error : Option String := none
  id : Option JSVal := none
  item : JSVal

/-- The repository collaborator; a method that is absent in the options is
`none`, and a call that throws is modelled by `.error message`. -/
structure Repository where
  create : Option (JSVal → Except String JSVal) := none
  update : Option (JSVal → JSVal → Except String JSVal) := none
  delete : Option (JSVal → Except String JSVal) := none

/-- The slice of the merged options record that the four handlers read. -/
structure HandlerOptions where
  repository : Option Repository := none
  validateItem : Option (JSVal → ValidationOutcome) := none
  idField : String := "id"
  processor : Option (JSVal → Except String JSVal) := none

/-- The `validateItem` guard shared by the create and update handlers:
`none` means the item passed, `some e` the failure message pushed
(`validationResult` itself when it is a string, `"Validation failed"`
otherwise). -/
def applyValidator (validateItem : Option (JSVal → ValidationOutcome)) (item : JSVal) :
    Option String :=
  match validateItem with
  | none => none
  | some v =>
    match v item with
    | .ok => none
    | .msg s => some s
    | .other => some "Validation failed"

/-- Models `handleError` of the base class: `{success: false, error: message, item}`. -/
def handleErrorResult (msg : String) (item : JSVal) : ItemResult :=
  { success := false, error := some msg, item := item }

/-! ### The four operation handlers -/

/-- Body of `CreateOperation.execute`'s per-item loop. -/
def createPerItem (create : JSVal → Except String JSVal)
    (validateItem : Option (JSVal → ValidationOutcome)) (item : JSVal) : ItemResult :=
  match applyValidator validateItem item with
  | some e => { success := false, error := some e, item := item }
  | none =>
    match create item with
    | .ok r => { success := true, result := some r, item := item }
    | .error e => handleErrorResult e item

/-- Models `CreateOperation.execute`: throws when no repository with a `create`
method was supplied, otherwise processes every item in order. -/
def createExecute (opts : HandlerOptions) (items : List JSVal) :
    Except String (List ItemResult) :=
  match opts.repository.bind (fun r => r.create) with
  | none => .error "Repository with create() method is required"
  | some create => .ok (items.map (createPerItem create opts.validateItem))

/-- Body of `UpdateOperation.execute`'s per-item loop: id-field check first,
then the optional validator, then the repository call; every thrown error is
caught into the item's result. -/
def updatePerItem (update : JSVal → JSVal → Except String JSVal)
    (validateItem : Option (JSVal → ValidationOutcome)) (idField : String)
    (item : JSVal) : ItemResult :=
  match item.getField idField with
  | .error e => handleErrorResult e item
  | .ok idv =>
    if !idv.truthy then
      { success := false, error := some ("Item is missing " ++ idField ++ " field"),
        item := item }
    else
      match applyValidator validateItem item with
      | some e => { success := false, error := some e, item := item }
      | none =>
        match update idv item with
        | .ok r => { success := true, result := some r, item := item }
        | .error e => handleErrorResult e item

/-- Models `UpdateOperation.execute`. -/
def updateExecute (opts : HandlerOptions) (items : List JSVal) :
    Except String (List ItemResult) :=
  match opts.repository.bind (fun r => r.update) with
  | none => .error "Repository with update() method is required"
  | some update => .ok (items.map (updatePerItem update opts.validateItem opts.idField))

/-- The selection `typeof item === "object" ? item[idField] : item` of the delete handler;
an `.error` is the `TypeError` thrown when `item` is `null`. -/
def deleteIdOf (idField : String) (item : JSVal) : Except String JSVal :=
  if item.isObjectType then item.getField idField else .ok item

/-- Body of `DeleteOperation.execute`'s per-item loop. -/
def deletePerItem (delete : JSVal → Except String JSVal) (idField : String)
    (item : JSVal) : ItemResult :=
  match deleteIdOf idField item with
  | .error e => handleErrorResult e item
  | .ok idv =>
    if !idv.truthy then
      { success := false, error := some ("Item is missing " ++ idField ++ " field"),
        item := item }
    else
      match delete idv with
      | .ok r => { success := true, result := some r, id := some idv, item := item }
      | .error e => handleErrorResult e item

/-- Models `DeleteOperation.execute`. -/
def deleteExecute (opts : HandlerOptions) (items : List JSVal) :
    Except String (List ItemResult) :=
  match opts.repository.bind (fun r => r.delete) with
  | none => .error "Repository with delete() method is required"
  | some delete => .ok (items.map (deletePerItem delete opts.idField))

/-- Body of `CustomOperation.execute`'s per-item loop. -/
def customPerItem (processor : JSVal → Except String JSVal) (item : JSVal) : ItemResult :=
  match processor item with
  | .ok r => { success := true, result := some r, item := item }
  | .error e => handleErrorResult e item

/-- Models `CustomOperation.execute`. -/
def customExecute (opts : HandlerOptions) (items : List JSVal) :
    Except String (List ItemResult) :=
  match opts.processor with
  | none => .error "Processor function is required"
  | some p => .ok (items.map (customPerItem p))

/-- An instantiated operation handler (`new HandlerClass(mergedOptions)`):
its `validate` and its `execute`, the latter returning `.error` when the
whole invocation throws. -/
structure Handler where
  validate : List JSVal → Bool
  execute : List JSVal → Except String (List ItemResult)

/-- Models `BatchOperation.validate`, the default used by all four standard
handlers: a non-empty array. -/
def baseValidate (items : List JSVal) : Bool := !items.isEmpty

def createHandler (opts : HandlerOptions) : Handler :=
  { validate := baseValidate, execute := createExecute opts }

def updateHandler (opts : HandlerOptions) : Handler :=
  { validate := baseValidate, execute := updateExecute opts }

def deleteHandler (opts : HandlerOptions) : Handler :=
  { validate := baseValidate, execute := deleteExecute opts }

def customHandler (opts : HandlerOptions) : Handler :=
  { validate := baseValidate, execute := customExecute opts }

/-- The process-wide `BatchOperationFactory` registry as populated at module
load: the four standard kinds, each handler instantiated with the merged
options of the call. -/
def stdRegistry (opts : HandlerOptions) : String → Option Handler := fun kind =>
  if kind = "create" then some (createHandler opts)
  else if kind = "update" then some (updateHandler opts)
  else if kind = "delete" then some (deleteHandler opts)
  else if kind = "custom" then some (customHandler opts)
  else none

/-! ### Retry with backoff -/

/-- Exponential-backoff delay computed before retry `attempt + 1`:
`delay * Math.pow(1.5, attempt - 1) * jitter`. -/
def jitterOf (rand : ℚ) : ℚ := rand * (3 / 10) + 17 / 20

def backoffDelay (delay : ℚ) (attempt : ℕ) (rand : ℚ) : ℚ :=
  delay * (3 / 2) ^ (attempt - 1) * jitterOf rand

/-- The loop of `_executeWithRetry`. `fn` is indexed by the attempt number so
that an effectful function may behave differently per attempt; the first
component of the value counts how many times `fn` was invoked. The `.error
none` outcome models `maxAttempts = 0`, where the JS code throws the
uninitialized `lastError`. -/
def retryGo (fn : ℕ → Except String (List ItemResult)) :
    ℕ → ℕ → Option String → ℕ → ℕ × Except (Option String) (List ItemResult)
  | _, 0, lastError, calls => (calls, .error lastError)
  | attempt, remaining + 1, _, calls =>
    match fn attempt with
    | .ok a => (calls + 1, .ok a)
    | .error e => retryGo fn (attempt + 1) remaining (some e) (calls + 1)

/-- Models `_executeWithRetry(fn, maxAttempts, delay)`: attempts numbered
`1..maxAttempts`; after the final failure the last error propagates. The
backoff sleep affects timing only, not the value, so it does not appear. -/
def executeWithRetry (fn : ℕ → Except String (List ItemResult)) (maxAttempts : ℕ) :
    ℕ × Except (Option String) (List ItemResult) :=
  retryGo fn 1 maxAttempts none 0

/-! ### The batch scheduler (`BatchOperations.execute`) -/

/-- Engine configuration (`BATCH_OPERATIONS_CONFIG` merged with per-call
options). `retryDelay` only affects timing. -/
structure SchedConfig where
  enabled : Bool
  maxConcurrent : ℕ
  batchSize : ℕ
  retryAttempts : ℕ
  retryDelay : ℚ

/-- The defaults of `BATCH_OPERATIONS_CONFIG`. -/
def cfgStd : SchedConfig :=
  { enabled := true, maxConcurrent := 5, batchSize := 50, retryAttempts := 3,
    retryDelay := 1000 }

/-- Fuel-indexed helper for the partition loop; the fuel only bounds the
recursion depth (one unit per batch suffices since every batch is
non-empty when `b ≠ 0`). -/
def chunkGo (b : ℕ) : ℕ → List α → List (List α)
  | _, [] => []
  | 0, _ :: _ => []
  | fuel + 1, x :: xs => (x :: xs).take b :: chunkGo b fuel ((x :: xs).drop b)

/-- The partition loop `for (i = 0; i < items.length; i += batchSize)
batches.push(items.slice(i, i + batchSize))`. A `batchSize` of `0` would
loop forever in the source; it is mapped to `[]` here and excluded by the
`0 < b` hypotheses of the theorems below. -/
def chunkList (b : ℕ) (l : List α) : List (List α) :=
  if b = 0 then [] else chunkGo b l.length l

/-- The per-item failure record a batch task synthesizes for every item of a
batch whose retries are exhausted. -/
def failedResult (msg : String) (item : JSVal) : ItemResult :=
  { success := false, error := some msg, item := item }

/-- The `error.message` of the caught batch error (`none` is the `lastError`
that was never assigned). -/
def errorMessage : Option String → String
  | some m => m
  | none => "undefined"

/-- One batch task of `_processBatchesInParallel`: run the handler through
the retry wrapper; on final failure mark every item of the batch failed with
the batch-level message. -/
def processBatch (retryAttempts : ℕ) (h : Handler) (batch : List JSVal) :
    List ItemResult :=
  match (executeWithRetry (fun _ => h.execute batch) retryAttempts).2 with
  | .ok rs => rs
  | .error e => batch.map (failedResult (errorMessage e))

/-- Models `batchResults.flat()`: the per-batch result lists, in batch-index order,
flattened. -/
def combinedResults (cfg : SchedConfig) (h : Handler) (items : List JSVal) :
    List ItemResult :=
  ((chunkList cfg.batchSize items).map (processBatch cfg.retryAttempts h)).flatten

/-- The summary record returned by `execute` and `batchProcess`; fields that
a given return site does not set are `none`. -/
structure BatchSummary where
  success : Bool
  error : Option String := none
  message : Option String := none
  operations : ℕ
  succeeded : ℕ
  failed : ℕ
  successRate : Option ℚ := none
  results : Option (List ItemResult) := none

/-- The `success: false` summary returned when the engine is disabled. -/
def disabledSummary : BatchSummary :=
  { success := false, error := some "Batch operations are disabled",
    operations := 0, succeeded := 0, failed := 0 }

/-- The trivial summary returned by `execute` for an empty item list. -/
def noItemsSummary : BatchSummary :=
  { success := true, message := some "No items to process",
    operations := 0, succeeded := 0, failed := 0 }

/-- The summary built by `execute`'s catch block: the whole call failed. -/
def execFailSummary (msg : String) (n : ℕ) : BatchSummary :=
  { success := false, error := some msg, operations := 0, succeeded := 0, failed := n }

/-- The summary assembled on `execute`'s success path. -/
def runSummary (cfg : SchedConfig) (h : Handler) (items : List JSVal) : BatchSummary :=
  { success := true,
    operations := (combinedResults cfg h items).length,
    succeeded := ((combinedResults cfg h items).filter (fun r => r.success)).length,
    failed := ((combinedResults cfg h items).filter (fun r => !r.success)).length,
    successRate := some
      ((((combinedResults cfg h items).filter (fun r => r.success)).length : ℚ) /
        ((combinedResults cfg h items).length : ℚ) * 100),
    results := some (combinedResults cfg h items) }

/-- Models `BatchOperations.execute(operationType, items, options)`. `handler?` is
the registry lookup for the requested kind, already instantiated with the
merged options; `.error` models the one exception that escapes (the
unknown-operation-type throw sits before the try block). The `validate`
failure is thrown inside the try block and lands in the catch. -/
def executeModel (cfg : SchedConfig) (handler? : Option Handler) (items : List JSVal) :
    Except String BatchSummary :=
  if !cfg.enabled then .ok disabledSummary
  else
    match handler? with
    | none => .error "Unknown operation type"
    | some h =>
      if items.isEmpty then .ok noItemsSummary
      else if !h.validate items then .ok (execFailSummary "Items validation failed" items.length)
      else .ok (runSummary cfg h items)

/-! ### The completion-order model of `_processBatchesInParallel`

The shared results array is pre-sized; each batch task writes only its own
index. `order` is the order in which batch tasks complete (any permutation
of the batch indices); `slotFold` replays the writes, `parallelResults`
reads the array back in index order. -/

def slotFold (process : ℕ → List ItemResult) (order : List ℕ) :
    ℕ → Option (List ItemResult) :=
  order.foldl (fun acc i => Function.update acc i (some (process i))) (fun _ => none)

def parallelResults (process : ℕ → List ItemResult) (n : ℕ) (order : List ℕ) :
    List (List ItemResult) :=
  ((List.range n).map (slotFold process order)).map (fun o => o.getD [])

/-! ### The mixed batch processor (`BatchOperations.batchProcess`) -/

/-- One operation descriptor `{type, data}`. The registry keys are strings,
so `type` is modelled as a string (the empty string standing for any falsy
`type`); `data` is an arbitrary JS value. -/
structure MixedOp where
  type : String
  data : JSVal

/-- The distinct descriptor kinds, in first-appearance order (the iteration
order of the `operationsByType` map). -/
def kindsOf (ops : List MixedOp) : List String := (ops.map (fun o => o.type)).dedup

/-- The per-kind item list: the `data` values of the descriptors of that
kind, in input order. -/
def groupFor (ops : List MixedOp) (k : String) : List JSVal :=
  (ops.filter (fun o => decide (o.type = k))).map (fun o => o.data)

/-- The `execute` call for each distinct kind. -/
def perKindResults (cfg : SchedConfig) (registry : String → Option Handler)
    (ops : List MixedOp) : List (Except String BatchSummary) :=
  (kindsOf ops).map (fun k => executeModel cfg (registry k) (groupFor ops k))

def exceptIsError : Except String BatchSummary → Bool
  | .error _ => true
  | .ok _ => false

/-- Models `if (opResult.results) allResults.push(...opResult.results)`. -/
def extractResults : Except String BatchSummary → List ItemResult
  | .ok s => s.results.getD []
  | .error _ => []

/-- The message of the first rejected per-kind promise (what the catch block
of `batchProcess` sees when `Promise.all` rejects). -/
def firstErrorMsg : List (Except String BatchSummary) → String
  | [] => ""
  | .error e :: _ => e
  | .ok _ :: rest => firstErrorMsg rest

/-- The trivial summary returned by `batchProcess` for an empty descriptor
list. -/
def noOpsSummary : BatchSummary :=
  { success := true, message := some "No operations to process",
    operations := 0, succeeded := 0, failed := 0 }

/-- The source's `allResults`: every per-kind result list, merged into one flat list. -/
def mergedResults (cfg : SchedConfig) (registry : String → Option Handler)
    (ops : List MixedOp) : List ItemResult :=
  ((perKindResults cfg registry ops).map extractResults).flatten

/-- The summary assembled on `batchProcess`'s success path
(`failed = totalOperations - successCount` in the source). -/
def mergedSummary (cfg : SchedConfig) (registry : String → Option Handler)
    (ops : List MixedOp) : BatchSummary :=
  { success := true,
    operations := (mergedResults cfg registry ops).length,
    succeeded := ((mergedResults cfg registry ops).filter (fun r => r.success)).length,
    failed := (mergedResults cfg registry ops).length -
      ((mergedResults cfg registry ops).filter (fun r => r.success)).length,
    successRate := some
      (if (mergedResults cfg registry ops).length > 0 then
        (((mergedResults cfg registry ops).filter (fun r => r.success)).length : ℚ) /
          ((mergedResults cfg registry ops).length : ℚ) * 100
      else 100),
    results := some (mergedResults cfg registry ops) }

/-- Models `BatchOperations.batchProcess(operations, options)`: group by kind, run
`execute` per kind, merge. A descriptor with falsy `type` or `data` throws
inside the try block; an `execute` rejection (unknown kind) makes
`Promise.all` reject; both land in the catch block, whose summary counts
`failed = operations.length` but `operations = 0`. -/
def batchProcessModel (cfg : SchedConfig) (registry : String → Option Handler)
    (ops : List MixedOp) : BatchSummary :=
  if !cfg.enabled then disabledSummary
  else if ops.isEmpty then noOpsSummary
  else if ops.any (fun op => decide (op.type = "") || !op.data.truthy) then
    execFailSummary "Each operation must have a type and data" ops.length
  else if (perKindResults cfg registry ops).any exceptIsError then
    execFailSummary (firstErrorMsg (perKindResults cfg registry ops)) ops.length
  else mergedSummary cfg registry ops

/-! ### Lemmas about the partition loop -/

theorem chunkGo_fuel (b : ℕ) (hb : b ≠ 0) :
    ∀ (f1 : ℕ) (l : List α) (f2 : ℕ), l.length ≤ f1 → l.length ≤ f2 →
      chunkGo b f1 l = chunkGo b f2 l
  | f1, [], f2, _, _ => by cases f1 <;> cases f2 <;> rfl
  | 0, x :: xs, _, h1, _ => absurd h1 (by simp)
  | _ + 1, x :: xs, 0, _, h2 => absurd h2 (by simp)
  | f1 + 1, x :: xs, f2 + 1, h1, h2 => by
    unfold chunkGo
    congr 1
    apply chunkGo_fuel b hb f1 ((x :: xs).drop b) f2
    · simp only [List.length_drop, List.length_cons]
      simp only [List.length_cons] at h1
      omega
    · simp only [List.length_drop, List.length_cons]
      simp only [List.length_cons] at h2
      omega

theorem chunkList_nil (b : ℕ) : chunkList b ([] : List α) = [] := by
  unfold chunkList
  split <;> rfl

theorem chunkList_cons (b : ℕ) (hb : b ≠ 0) (x : α) (xs : List α) :
    chunkList b (x :: xs) = (x :: xs).take b :: chunkList b ((x :: xs).drop b) := by
  unfold chunkList
  rw [if_neg hb, if_neg hb]
  show (x :: xs).take b :: chunkGo b xs.length ((x :: xs).drop b) = _
  congr 1
  apply chunkGo_fuel b hb
  · simp only [List.length_drop, List.length_cons]
    omega
  · exact Nat.le_refl _

theorem chunkList_eq_nil {b : ℕ} (hb : b ≠ 0) {l : List α} (h : chunkList b l = []) :
    l = [] := by
  cases l with
  | nil => rfl
  | cons x xs => rw [chunkList_cons b hb x xs] at h; cases h

theorem chunkList_flatten (b : ℕ) (hb : 0 < b) : ∀ l : List α, (chunkList b l).flatten = l
  | [] => by rw [chunkList_nil]; rfl
  | x :: xs => by
    rw [chunkList_cons b hb.ne' x xs]
    simp only [List.flatten_cons]
    rw [chunkList_flatten b hb ((x :: xs).drop b)]
    exact List.take_append_drop b (x :: xs)
termination_by l => l.length
decreasing_by
  simp only [List.length_drop, List.length_cons]
  omega

theorem chunkList_length (b : ℕ) (hb : 0 < b) :
    ∀ l : List α, (chunkList b l).length = (l.length + b - 1) / b
  | [] => by
    rw [chunkList_nil]
    have h2 : (b - 1) / b = 0 := Nat.div_eq_of_lt (by omega)
    simp [h2]
  | x :: xs => by
    rw [chunkList_cons b hb.ne' x xs]
    rw [List.length_cons, chunkList_length b hb ((x :: xs).drop b)]
    simp only [List.length_drop, List.length_cons]
    rcases Nat.lt_or_ge (xs.length + 1) b with h | h
    · have h1 : xs.length + 1 - b = 0 := by omega
      have h2 : (0 + b - 1) / b = 0 := Nat.div_eq_of_lt (by omega)
      have h3 : xs.length + 1 + b - 1 = xs.length + b := by omega
      have h4 : (xs.length + b) / b = xs.length / b + 1 := Nat.add_div_right _ hb
      have h5 : xs.length / b = 0 := Nat.div_eq_of_lt (by omega)
      rw [h1, h2, h3, h4, h5]
    · have h1 : xs.length + 1 - b + b - 1 = xs.length := by omega
      have h3 : xs.length + 1 + b - 1 = xs.length + b := by omega
      rw [h1, h3, Nat.add_div_right _ hb]
termination_by l => l.length
decreasing_by
  simp only [List.length_drop, List.length_cons]
  omega

theorem chunkList_dropLast (b : ℕ) (hb : 0 < b) :
    ∀ l : List α, ∀ c ∈ (chunkList b l).dropLast, c.length = b
  | [] => by rw [chunkList_nil]; intro c hc; cases hc
  | x :: xs => by
    rw [chunkList_cons b hb.ne' x xs]
    cases hrest : chunkList b ((x :: xs).drop b) with
    | nil => intro c hc; cases hc
    | cons y ys =>
      intro c hc
      rw [List.dropLast_cons₂] at hc
      rcases List.mem_cons.mp hc with hc1 | hc2
      · subst hc1
        have hne : (x :: xs).drop b ≠ [] := by
          intro hd
          rw [hd, chunkList_nil] at hrest
          cases hrest
        have hlen : 0 < ((x :: xs).drop b).length := List.length_pos.mpr hne
        simp only [List.length_drop, List.length_cons] at hlen
        simp only [List.length_take, List.length_cons]
        omega
      · rw [← hrest] at hc2
        exact chunkList_dropLast b hb ((x :: xs).drop b) c hc2
termination_by l => l.length
decreasing_by
  simp only [List.length_drop, List.length_cons]
  omega

theorem chunkList_getLast (b : ℕ) (hb : 0 < b) :
    ∀ l : List α, ∀ c, (chunkList b l).getLast? = some c →
      c.length = if l.length % b = 0 then b else l.length % b
  | [] => by rw [chunkList_nil]; intro c hc; cases hc
  | x :: xs => by
    intro c hc
    rw [chunkList_cons b hb.ne' x xs] at hc
    cases hrest : chunkList b ((x :: xs).drop b) with
    | nil =>
      rw [hrest] at hc
      simp only [List.getLast?_singleton, Option.some.injEq] at hc
      subst hc
      have hdrop : (x :: xs).drop b = [] := chunkList_eq_nil hb.ne' hrest
      have hlen : ((x :: xs).drop b).length = 0 := by rw [hdrop]; rfl
      simp only [List.length_drop, List.length_cons] at hlen
      simp only [List.length_take, List.length_cons]
      rcases Nat.lt_or_ge (xs.length + 1) b with h | h
      · have hm : (xs.length + 1) % b = xs.length + 1 := Nat.mod_eq_of_lt h
        rw [hm, if_neg (by omega)]
        omega
      · have heq : xs.length + 1 = b := by omega
        rw [heq, Nat.mod_self, if_pos rfl]
        omega
    | cons y ys =>
      rw [hrest, List.getLast?_cons_cons, ← hrest] at hc
      have hne : (x :: xs).drop b ≠ [] := by
        intro hd
        rw [hd, chunkList_nil] at hrest
        cases hrest
      have hlt : b < xs.length + 1 := by
        have := List.length_pos.mpr hne
        simp only [List.length_drop, List.length_cons] at this
        omega
      have IH := chunkList_getLast b hb ((x :: xs).drop b) c hc
      simp only [List.length_drop, List.length_cons] at IH
      have hmod : (xs.length + 1 - b) % b = (xs.length + 1) % b := by
        have h2 : xs.length + 1 - b + b = xs.length + 1 := by omega
        calc (xs.length + 1 - b) % b
            = (xs.length + 1 - b + b) % b := (Nat.add_mod_right _ _).symm
          _ = (xs.length + 1) % b := by rw [h2]
      rw [hmod] at IH
      simpa using IH
termination_by l => l.length
decreasing_by
  simp only [List.length_drop, List.length_cons]
  omega

/-- Splitting a list by a boolean predicate accounts for every element. -/
theorem length_filter_add_not (p : α → Bool) :
    ∀ l : List α, (l.filter p).length + (l.filter (fun a => !p a)).length = l.length
  | [] => rfl
  | x :: xs => by
    have ih := length_filter_add_not p xs
    cases hx : p x <;> simp [List.filter_cons, hx] <;> omega

/-! ### Lemmas about the retry wrapper -/

theorem retryGo_fail (fn : ℕ → Except String (List ItemResult)) (err : ℕ → String)
    (hfail : ∀ k, fn k = .error (err k)) :
    ∀ (r a : ℕ) (le : Option String) (c : ℕ), 0 < r →
      retryGo fn a r le c = (c + r, .error (some (err (a + r - 1))))
  | 0, _, _, _, hr => absurd hr (by omega)
  | 1, a, le, c, _ => by
    unfold retryGo
    rw [hfail a]
    unfold retryGo
    rfl
  | r + 2, a, le, c, _ => by
    unfold retryGo
    rw [hfail a]
    simp only []
    rw [retryGo_fail fn err hfail (r + 1) (a + 1) (some (err a)) (c + 1) (by omega)]
    have h1 : c + 1 + (r + 1) = c + (r + 2) := by omega
    have h2 : a + 1 + (r + 1) - 1 = a + (r + 2) - 1 := by omega
    rw [h1, h2]

theorem executeWithRetry_fail (fn : ℕ → Except String (List ItemResult)) (err : ℕ → String)
    (hfail : ∀ k, fn k = .error (err k)) (m : ℕ) (hm : 1 ≤ m) :
    executeWithRetry fn m = (m, .error (some (err m))) := by
  unfold executeWithRetry
  rw [retryGo_fail fn err hfail m 1 none 0 (by omega)]
  have h1 : 0 + m = m := by omega
  have h2 : 1 + m - 1 = m := by omega
  rw [h1, h2]

theorem retryGo_const_ok (rs : List ItemResult) :
    ∀ (r : ℕ) (res : Except String (List ItemResult)) (a : ℕ) (le : Option String) (c : ℕ),
      (retryGo (fun _ => res) a r le c).2 = .ok rs → res = .ok rs
  | 0, res, a, le, c => by
    unfold retryGo
    intro h
    cases h
  | r + 1, res, a, le, c => by
    intro h
    unfold retryGo at h
    cases hres : res with
    | ok v =>
      subst hres
      simpa using h
    | error e =>
      subst hres
      simp only [] at h
      exact retryGo_const_ok rs r (Except.error e) (a + 1) (some e) (c + 1) h

theorem retry_const_ok (res : Except String (List ItemResult)) (n : ℕ) (rs : List ItemResult)
    (h : (executeWithRetry (fun _ => res) n).2 = .ok rs) : res = .ok rs :=
  retryGo_const_ok rs n res 1 none 0 h

theorem retry_const_err (res : Except String (List ItemResult)) (n : ℕ) (e : String)
    (h : (executeWithRetry (fun _ => res) n).2 = .error (some e)) : res = .error e := by
  cases hres : res with
  | ok v =>
    subst hres
    cases n with
    | zero => simp [executeWithRetry, retryGo] at h
    | succ n => simp [executeWithRetry, retryGo] at h
  | error e' =>
    subst hres
    cases n with
    | zero => simp [executeWithRetry, retryGo] at h
    | succ n =>
      rw [executeWithRetry_fail (fun _ => .error e') (fun _ => e') (fun _ => rfl) (n + 1)
        (by omega)] at h
      exact congrArg Except.error (Option.some.inj (Except.error.inj h))

/-! ### Per-item and per-batch structure lemmas -/

theorem createPerItem_item (c : JSVal → Except String JSVal)
    (vi : Option (JSVal → ValidationOutcome)) (x : JSVal) :
    (createPerItem c vi x).item = x := by
  unfold createPerItem handleErrorResult
  repeat' split
  all_goals rfl

theorem updatePerItem_item (u : JSVal → JSVal → Except String JSVal)
    (vi : Option (JSVal → ValidationOutcome)) (idf : String) (x : JSVal) :
    (updatePerItem u vi idf x).item = x := by
  unfold updatePerItem handleErrorResult
  repeat' split
  all_goals rfl

theorem deletePerItem_item (d : JSVal → Except String JSVal) (idf : String) (x : JSVal) :
    (deletePerItem d idf x).item = x := by
  unfold deletePerItem handleErrorResult
  repeat' split
  all_goals rfl

theorem customPerItem_item (p : JSVal → Except String JSVal) (x : JSVal) :
    (customPerItem p x).item = x := by
  unfold customPerItem handleErrorResult
  repeat' split
  all_goals rfl

theorem processBatch_echo (ra : ℕ) (h : Handler) (batch : List JSVal)
    (hgood : ∀ rs, h.execute batch = .ok rs → rs.map (fun r => r.item) = batch) :
    (processBatch ra h batch).map (fun r => r.item) = batch := by
  unfold processBatch
  cases hout : (executeWithRetry (fun _ => h.execute batch) ra).2 with
  | ok rs => exact hgood rs (retry_const_ok _ _ _ hout)
  | error e =>
    simp only [List.map_map]
    have : ((fun r : ItemResult => r.item) ∘ failedResult (errorMessage e)) = id := by
      funext x
      rfl
    rw [this, List.map_id]

theorem processBatch_length (ra : ℕ) (h : Handler) (batch : List JSVal)
    (hgood : ∀ rs, h.execute batch = .ok rs → rs.map (fun r => r.item) = batch) :
    (processBatch ra h batch).length = batch.length := by
  have := congrArg List.length (processBatch_echo ra h batch hgood)
  simpa using this

theorem processBatch_err (ra : ℕ) (h : Handler) (batch : List JSVal) (e : String)
    (hra : 1 ≤ ra) (he : h.execute batch = .error e) :
    processBatch ra h batch = batch.map (failedResult e) := by
  unfold processBatch
  rw [executeWithRetry_fail (fun _ => h.execute batch) (fun _ => e) (fun _ => he) ra hra]
  rfl

/-! ### Handler goodness -/

/-- A registered handler that validates any non-empty list and whose result
lists echo their input items one-for-one; all four standard handlers are
good in this sense. -/
def GoodHandler (h : Handler) : Prop :=
  (∀ b : List JSVal, b ≠ [] → h.validate b = true) ∧
  (∀ (b : List JSVal) (rs : List ItemResult),
    h.execute b = .ok rs → rs.map (fun r => r.item) = b)

theorem baseValidate_of_ne_nil (b : List JSVal) (hb : b ≠ []) : baseValidate b = true := by
  cases b with
  | nil => exact absurd rfl hb
  | cons x xs => rfl

theorem createHandler_good (opts : HandlerOptions) : GoodHandler (createHandler opts) := by
  constructor
  · exact baseValidate_of_ne_nil
  · intro b rs h
    unfold createHandler createExecute at h
    cases hrepo : opts.repository.bind (fun r => r.create) with
    | none => rw [hrepo] at h; cases h
    | some c =>
      rw [hrepo] at h
      simp only [Except.ok.injEq] at h
      subst h
      simp only [List.map_map]
      have : ((fun r : ItemResult => r.item) ∘ createPerItem c opts.validateItem) = id := by
        funext x
        exact createPerItem_item c opts.validateItem x
      rw [this, List.map_id]

theorem updateHandler_good (opts : HandlerOptions) : GoodHandler (updateHandler opts) := by
  constructor
  · exact baseValidate_of_ne_nil
  · intro b rs h
    unfold updateHandler updateExecute at h
    cases hrepo : opts.repository.bind (fun r => r.update) with
    | none => rw [hrepo] at h; cases h
    | some u =>
      rw [hrepo] at h
      simp only [Except.ok.injEq] at h
      subst h
      simp only [List.map_map]
      have : ((fun r : ItemResult => r.item) ∘
          updatePerItem u opts.validateItem opts.idField) = id := by
        funext x
        exact updatePerItem_item u opts.validateItem opts.idField x
      rw [this, List.map_id]

theorem deleteHandler_good (opts : HandlerOptions) : GoodHandler (deleteHandler opts) := by
  constructor
  · exact baseValidate_of_ne_nil
  · intro b rs h
    unfold deleteHandler deleteExecute at h
    cases hrepo : opts.repository.bind (fun r => r.delete) with
    | none => rw [hrepo] at h; cases h
    | some d =>
      rw [hrepo] at h
      simp only [Except.ok.injEq] at h
      subst h
      simp only [List.map_map]
      have : ((fun r : ItemResult => r.item) ∘ deletePerItem d opts.idField) = id := by
        funext x
        exact deletePerItem_item d opts.idField x
      rw [this, List.map_id]

theorem customHandler_good (opts : HandlerOptions) : GoodHandler (customHandler opts) := by
  constructor
  · exact baseValidate_of_ne_nil
  · intro b rs h
    unfold customHandler customExecute at h
    cases hproc : opts.processor with
    | none => rw [hproc] at h; cases h
    | some p =>
      rw [hproc] at h
      simp only [Except.ok.injEq] at h
      subst h
      simp only [List.map_map]
      have : ((fun r : ItemResult => r.item) ∘ customPerItem p) = id := by
        funext x
        exact customPerItem_item p x
      rw [this, List.map_id]

theorem stdRegistry_good (opts : HandlerOptions) (k : String) (h : Handler)
    (hk : stdRegistry opts k = some h) : GoodHandler h := by
  unfold stdRegistry at hk
  split_ifs at hk <;> first
    | (cases hk; exact createHandler_good opts)
    | (cases hk; exact updateHandler_good opts)
    | (cases hk; exact deleteHandler_good opts)
    | (cases hk; exact customHandler_good opts)
    | (cases hk)

/-! ### The results array is completion-order independent -/

theorem slotFold_not_mem (process : ℕ → List ItemResult) :
    ∀ (order : List ℕ) (acc : ℕ → Option (List ItemResult)) (i : ℕ), i ∉ order →
      order.foldl (fun acc j => Function.update acc j (some (process j))) acc i = acc i
  | [], _, _, _ => rfl
  | j :: rest, acc, i, h => by
    have hij : i ≠ j := fun he => h (he ▸ List.mem_cons_self j rest)
    have hir : i ∉ rest := fun hm => h (List.mem_cons_of_mem j hm)
    simp only [List.foldl_cons]
    rw [slotFold_not_mem process rest _ i hir]
    exact Function.update_noteq hij _ _

theorem slotFold_mem (process : ℕ → List ItemResult) :
    ∀ (order : List ℕ) (acc : ℕ → Option (List ItemResult)) (i : ℕ), i ∈ order →
      order.foldl (fun acc j => Function.update acc j (some (process j))) acc i =
        some (process i)
  | [], _, i, h => absurd h (List.not_mem_nil i)
  | j :: rest, acc, i, h => by
    simp only [List.foldl_cons]
    by_cases hir : i ∈ rest
    · exact slotFold_mem process rest _ i hir
    · have hij : i = j := by
        rcases List.mem_cons.mp h with h1 | h1
        · exact h1
        · exact absurd h1 hir
      rw [slotFold_not_mem process rest _ i hir]
      subst hij
      exact Function.update_same i (some (process i)) acc

/-- Whatever order the batch tasks complete in, reading the pre-sized
results array back in index order yields the same list of per-batch
results. -/
theorem parallelResults_perm (process : ℕ → List ItemResult) (n : ℕ) (order : List ℕ)
    (hperm : order.Perm (List.range n)) :
    parallelResults process n order = (List.range n).map process := by
  unfold parallelResults slotFold
  rw [List.map_map]
  apply List.map_congr_left
  intro i hi
  have hmem : i ∈ order := hperm.mem_iff.mpr hi
  simp only [Function.comp_apply]
  rw [slotFold_mem process order _ i hmem]
  rfl

theorem map_getD_range {β : Type} (f : List JSVal → β) :
    ∀ l : List (List JSVal),
      (List.range l.length).map (fun i => f (l.getD i [])) = l.map f
  | [] => rfl
  | x :: xs => by
    rw [List.length_cons, List.range_succ_eq_map]
    simp only [List.map_cons, List.map_map, List.getD_cons_zero]
    congr 1
    rw [← map_getD_range f xs]
    apply List.map_congr_left
    intro i _
    simp only [Function.comp_apply, Nat.succ_eq_add_one, List.getD_cons_succ]

/-! ### Assembled results echo the input items -/

theorem combinedResults_echo (cfg : SchedConfig) (h : Handler) (items : List JSVal)
    (hb : 0 < cfg.batchSize)
    (hgood : ∀ (b : List JSVal) (rs : List ItemResult),
      h.execute b = .ok rs → rs.map (fun r => r.item) = b) :
    (combinedResults cfg h items).map (fun r => r.item) = items := by
  unfold combinedResults
  rw [List.map_flatten, List.map_map]
  have hcongr : (chunkList cfg.batchSize items).map
      (List.map (fun r : ItemResult => r.item) ∘ processBatch cfg.retryAttempts h) =
      (chunkList cfg.batchSize items).map id := by
    apply List.map_congr_left
    intro b _
    exact processBatch_echo cfg.retryAttempts h b (fun rs hrs => hgood b rs hrs)
  rw [hcongr, List.map_id]
  exact chunkList_flatten cfg.batchSize hb items

theorem combinedResults_length (cfg : SchedConfig) (h : Handler) (items : List JSVal)
    (hb : 0 < cfg.batchSize)
    (hgood : ∀ (b : List JSVal) (rs : List ItemResult),
      h.execute b = .ok rs → rs.map (fun r => r.item) = b) :
    (combinedResults cfg h items).length = items.length := by
  have he := congrArg List.length (combinedResults_echo cfg h items hb hgood)
  simpa using he

theorem isEmpty_false_of_ne_nil {α : Type} {l : List α} (h : l ≠ []) : l.isEmpty = false := by
  cases l with
  | nil => exact absurd rfl h
  | cons x xs => rfl

theorem executeModel_run (cfg : SchedConfig) (h : Handler) (items : List JSVal)
    (hen : cfg.enabled = true) (hne : items ≠ []) (hval : h.validate items = true) :
    executeModel cfg (some h) items = .ok (runSummary cfg h items) := by
  unfold executeModel
  simp [hen, isEmpty_false_of_ne_nil hne, hval]

theorem executeModel_total (cfg : SchedConfig) (h : Handler) (items : List JSVal) :
    ∃ s, executeModel cfg (some h) items = .ok s := by
  unfold executeModel
  cases hen : cfg.enabled with
  | false => exact ⟨disabledSummary, rfl⟩
  | true =>
    cases hemp : items.isEmpty with
    | true => exact ⟨noItemsSummary, rfl⟩
    | false =>
      cases hval : h.validate items with
      | false => exact ⟨execFailSummary "Items validation failed" items.length, by simp [hval]⟩
      | true => exact ⟨runSummary cfg h items, by simp [hval]⟩

/-! ### Counting descriptors across the by-kind grouping -/

theorem sum_map_add (f g : α → ℕ) :
    ∀ l : List α, (l.map (fun x => f x + g x)).sum = (l.map f).sum + (l.map g).sum
  | [] => rfl
  | x :: xs => by
    simp only [List.map_cons, List.sum_cons, sum_map_add f g xs]
    omega

theorem sum_indicator_zero [DecidableEq α] (x : α) :
    ∀ d : List α, x ∉ d → (d.map (fun k => if x = k then 1 else 0)).sum = 0
  | [], _ => rfl
  | j :: rest, hx => by
    have hxj : x ≠ j := fun he => hx (he ▸ List.mem_cons_self j rest)
    have hxr : x ∉ rest := fun hm => hx (List.mem_cons_of_mem j hm)
    simp only [List.map_cons, List.sum_cons]
    rw [if_neg hxj, sum_indicator_zero x rest hxr]

theorem sum_indicator_one [DecidableEq α] (x : α) :
    ∀ d : List α, x ∈ d → d.Nodup →
      (d.map (fun k => if x = k then 1 else 0)).sum = 1
  | [], hx, _ => absurd hx (List.not_mem_nil x)
  | j :: rest, hx, hnd => by
    simp only [List.map_cons, List.sum_cons]
    rcases List.mem_cons.mp hx with h1 | h1
    · subst h1
      have hxr : x ∉ rest := (List.nodup_cons.mp hnd).1
      rw [if_pos rfl, sum_indicator_zero x rest hxr]
    · have hxj : x ≠ j := by
        intro he
        subst he
        exact (List.nodup_cons.mp hnd).1 h1
      rw [if_neg hxj, sum_indicator_one x rest h1 (List.nodup_cons.mp hnd).2]

theorem countP_eq_zero_of_not_mem [DecidableEq α] (x : α) :
    ∀ l : List α, x ∉ l → l.countP (fun y => decide (y = x)) = 0
  | [], _ => rfl
  | j :: rest, hx => by
    have hxj : j ≠ x := fun he => hx (he ▸ List.mem_cons_self j rest)
    have hxr : x ∉ rest := fun hm => hx (List.mem_cons_of_mem j hm)
    rw [List.countP_cons, countP_eq_zero_of_not_mem x rest hxr]
    simp [hxj]

theorem sum_countP_dedup [DecidableEq α] :
    ∀ l : List α,
      (l.dedup.map (fun k => l.countP (fun y => decide (y = k)))).sum = l.length
  | [] => by simp
  | x :: xs => by
    have hsplit : ∀ d : List α,
        (d.map (fun k => (x :: xs).countP (fun y => decide (y = k)))).sum =
          (d.map (fun k => xs.countP (fun y => decide (y = k)))).sum +
          (d.map (fun k => if x = k then 1 else 0)).sum := by
      intro d
      rw [← sum_map_add]
      apply congrArg List.sum
      apply List.map_congr_left
      intro k _
      rw [List.countP_cons]
      by_cases hxk : x = k <;> simp [hxk]
    by_cases hx : x ∈ xs
    · rw [List.dedup_cons_of_mem hx, hsplit, sum_countP_dedup xs,
        sum_indicator_one x xs.dedup (List.mem_dedup.mpr hx) (List.nodup_dedup xs)]
      rfl
    · rw [List.dedup_cons_of_not_mem hx]
      simp only [List.map_cons, List.sum_cons]
      rw [hsplit, sum_countP_dedup xs, sum_indicator_zero x xs.dedup
        (fun hm => hx (List.mem_dedup.mp hm))]
      rw [List.countP_cons, countP_eq_zero_of_not_mem x xs hx]
      simp
      omega

theorem kindsOf_attained (ops : List MixedOp) (k : String) (hk : k ∈ kindsOf ops) :
    ∃ op ∈ ops, op.type = k := by
  unfold kindsOf at hk
  have hmem := List.mem_dedup.mp hk
  rcases List.mem_map.mp hmem with ⟨op, hop, heq⟩
  exact ⟨op, hop, heq⟩

theorem groupFor_ne_nil (ops : List MixedOp) (k : String) (op : MixedOp)
    (hop : op ∈ ops) (heq : op.type = k) : groupFor ops k ≠ [] := by
  unfold groupFor
  have hfil : op ∈ ops.filter (fun o => decide (o.type = k)) :=
    List.mem_filter.mpr ⟨hop, by simp [heq]⟩
  exact List.ne_nil_of_mem (List.mem_map_of_mem (fun o => o.data) hfil)

theorem sum_groupFor (ops : List MixedOp) :
    ((kindsOf ops).map (fun k => (groupFor ops k).length)).sum = ops.length := by
  unfold kindsOf groupFor
  have h1 : ((ops.map (fun o => o.type)).dedup.map
      (fun k => ((ops.filter (fun o => decide (o.type = k))).map (fun o => o.data)).length)).sum =
      ((ops.map (fun o => o.type)).dedup.map
        (fun k => (ops.map (fun o => o.type)).countP (fun y => decide (y = k)))).sum := by
    apply congrArg List.sum
    apply List.map_congr_left
    intro k _
    rw [List.length_map, ← List.countP_eq_length_filter, List.countP_map]
    rfl
  rw [h1, sum_countP_dedup (ops.map (fun o => o.type))]
  exact List.length_map ops _

/-! ### The mixed-batch success path -/

theorem perKindResults_ok (cfg : SchedConfig) (registry : String → Option Handler)
    (ops : List MixedOp) (hen : cfg.enabled = true)
    (hreg : ∀ op ∈ ops, ∃ h, registry op.type = some h ∧ GoodHandler h) :
    ∀ k ∈ kindsOf ops, ∃ h, registry k = some h ∧ GoodHandler h ∧
      executeModel cfg (registry k) (groupFor ops k) =
        .ok (runSummary cfg h (groupFor ops k)) := by
  intro k hk
  rcases kindsOf_attained ops k hk with ⟨op, hop, heq⟩
  rcases hreg op hop with ⟨h, hlook, hgood⟩
  have hlook2 : registry k = some h := heq ▸ hlook
  refine ⟨h, hlook2, hgood, ?_⟩
  rw [hlook2]
  exact executeModel_run cfg h (groupFor ops k) hen
    (groupFor_ne_nil ops k op hop heq)
    (hgood.1 (groupFor ops k) (groupFor_ne_nil ops k op hop heq))

theorem batchProcessModel_run (cfg : SchedConfig) (registry : String → Option Handler)
    (ops : List MixedOp) (hen : cfg.enabled = true) (hne : ops ≠ [])
    (hops : ∀ op ∈ ops, op.type ≠ "" ∧ op.data.truthy = true)
    (hreg : ∀ op ∈ ops, ∃ h, registry op.type = some h ∧ GoodHandler h) :
    batchProcessModel cfg registry ops = mergedSummary cfg registry ops := by
  have hany1 : ops.any (fun op => decide (op.type = "") || !op.data.truthy) = false := by
    rw [List.any_eq_false]
    intro op hop
    have h1 := hops op hop
    simp [h1.1, h1.2]
  have hany2 : (perKindResults cfg registry ops).any exceptIsError = false := by
    rw [List.any_eq_false]
    intro r hr
    unfold perKindResults at hr
    rcases List.mem_map.mp hr with ⟨k, hk, heq⟩
    rcases perKindResults_ok cfg registry ops hen hreg k hk with ⟨h, _, _, hrun⟩
    rw [← heq, hrun]
    simp [exceptIsError]
  unfold batchProcessModel
  rw [hen, isEmpty_false_of_ne_nil hne, hany1, hany2]
  rfl

theorem mergedResults_length (cfg : SchedConfig) (registry : String → Option Handler)
    (ops : List MixedOp) (hen : cfg.enabled = true) (hb : 0 < cfg.batchSize)
    (hreg : ∀ op ∈ ops, ∃ h, registry op.type = some h ∧ GoodHandler h) :
    (mergedResults cfg registry ops).length = ops.length := by
  unfold mergedResults perKindResults
  rw [List.length_flatten, List.map_map, List.map_map]
  have hpt : (kindsOf ops).map
      ((List.length ∘ extractResults) ∘ fun k => executeModel cfg (registry k) (groupFor ops k)) =
      (kindsOf ops).map (fun k => (groupFor ops k).length) := by
    apply List.map_congr_left
    intro k hk
    rcases perKindResults_ok cfg registry ops hen hreg k hk with ⟨h, _, hgood, hrun⟩
    simp only [Function.comp_apply]
    rw [hrun]
    unfold extractResults runSummary
    simp only [Option.getD_some]
    exact combinedResults_length cfg h (groupFor ops k) hb hgood.2
  rw [hpt]
  exact sum_groupFor ops

/-! ### Concrete fixtures used by the witnesses and counterexamples -/

/-- The defaults with the engine disabled. -/
def cfgOff : SchedConfig := { cfgStd with enabled := false }

/-- A small configuration: batches of two, two concurrent batch tasks. -/
def cfgW : SchedConfig :=
  { enabled := true, maxConcurrent := 2, batchSize := 2, retryAttempts := 3,
    retryDelay := 1000 }

/-- Options wiring a repository whose methods always succeed and an identity
processor. -/
def opts0 : HandlerOptions :=
  { repository := some
      { create := some fun _ => .ok (.num 1)
        update := some fun _ _ => .ok .null
        delete := some fun v => .ok v }
    processor := some fun v => .ok v }

/-- The standard registry instantiated with `opts0`. -/
def reg0 : String → Option Handler := stdRegistry opts0

/-- The custom handler instantiated with `opts0`. -/
def h0 : Handler := customHandler opts0

/-! ### Exhaustive shapes of the returned summaries -/

theorem executeModel_cases (cfg : SchedConfig) (h? : Option Handler) (items : List JSVal)
    (s : BatchSummary) (hok : executeModel cfg h? items = .ok s) :
    s = disabledSummary ∨ s = noItemsSummary ∨
    s = execFailSummary "Items validation failed" items.length ∨
    ∃ h, h? = some h ∧ s = runSummary cfg h items := by
  cases hen : cfg.enabled with
  | false =>
    have he : executeModel cfg h? items = .ok disabledSummary := by
      unfold executeModel
      rw [hen]
      rfl
    rw [he] at hok
    left
    exact (Except.ok.inj hok).symm
  | true =>
    cases h? with
    | none =>
      have he : executeModel cfg none items = .error "Unknown operation type" := by
        unfold executeModel
        rw [hen]
        rfl
      rw [he] at hok
      cases hok
    | some h =>
      cases hemp : items.isEmpty with
      | true =>
        have he : executeModel cfg (some h) items = .ok noItemsSummary := by
          unfold executeModel
          rw [hen, hemp]
          rfl
        rw [he] at hok
        right; left
        exact (Except.ok.inj hok).symm
      | false =>
        cases hval : h.validate items with
        | false =>
          have he : executeModel cfg (some h) items =
              .ok (execFailSummary "Items validation failed" items.length) := by
            unfold executeModel
            rw [hen, hemp]
            show (if (!h.validate items) = true
                then Except.ok (execFailSummary "Items validation failed" items.length)
                else Except.ok (runSummary cfg h items)) =
              Except.ok (execFailSummary "Items validation failed" items.length)
            rw [hval]
            rfl
          rw [he] at hok
          right; right; left
          exact (Except.ok.inj hok).symm
        | true =>
          have he : executeModel cfg (some h) items = .ok (runSummary cfg h items) := by
            unfold executeModel
            rw [hen, hemp]
            show (if (!h.validate items) = true
                then Except.ok (execFailSummary "Items validation failed" items.length)
                else Except.ok (runSummary cfg h items)) =
              Except.ok (runSummary cfg h items)
            rw [hval]
            rfl
          rw [he] at hok
          right; right; right
          exact ⟨h, rfl, (Except.ok.inj hok).symm⟩

theorem batchProcessModel_cases (cfg : SchedConfig) (registry : String → Option Handler)
    (ops : List MixedOp) :
    batchProcessModel cfg registry ops = disabledSummary ∨
    batchProcessModel cfg registry ops = noOpsSummary ∨
    (∃ msg, batchProcessModel cfg registry ops = execFailSummary msg ops.length) ∨
    batchProcessModel cfg registry ops = mergedSummary cfg registry ops := by
  unfold batchProcessModel
  split_ifs with h1 h2 h3 h4
  · left; rfl
  · right; left; rfl
  · right; right; left; exact ⟨_, rfl⟩
  · right; right; left; exact ⟨_, rfl⟩
  · right; right; right; rfl

/-! ### Claim C1 -/

/-- Claim C1 fails as stated: the whole-call failure path of `batchProcess`
(here: a descriptor whose `data` is falsy) returns a summary with
`operations = 0`, `succeeded = 0` but `failed = 1`, so
`operations = succeeded + failed` does not hold on it. -/
theorem batchProcess_catch_counts_inconsistent :
    (batchProcessModel cfgStd reg0 [{ type := "create", data := JSVal.null }]).operations ≠
      (batchProcessModel cfgStd reg0 [{ type := "create", data := JSVal.null }]).succeeded +
        (batchProcessModel cfgStd reg0 [{ type := "create", data := JSVal.null }]).failed := by
  decide

/-- Claim C1, amended: every summary that `execute` or `batchProcess`
returns with `success = true` has consistent counts
(`operations = succeeded + failed`); a whole-call failure summary instead
reports `operations = 0` and `succeeded = 0` (with `failed` equal to the
input length), so the identity fails there exactly when the input was
non-empty. -/
theorem summary_counts_consistent :
    (∀ (cfg : SchedConfig) (h? : Option Handler) (items : List JSVal) (s : BatchSummary),
      executeModel cfg h? items = .ok s →
        (s.success = true → s.operations = s.succeeded + s.failed) ∧
        (s.success = false → s.operations = 0 ∧ s.succeeded = 0)) ∧
    (∀ (cfg : SchedConfig) (registry : String → Option Handler) (ops : List MixedOp),
      ((batchProcessModel cfg registry ops).success = true →
        (batchProcessModel cfg registry ops).operations =
          (batchProcessModel cfg registry ops).succeeded +
            (batchProcessModel cfg registry ops).failed) ∧
      ((batchProcessModel cfg registry ops).success = false →
        (batchProcessModel cfg registry ops).operations = 0 ∧
          (batchProcessModel cfg registry ops).succeeded = 0)) := by
  constructor
  · intro cfg h? items s hok
    rcases executeModel_cases cfg h? items s hok with hs | hs | hs | ⟨h, _, hs⟩ <;> subst hs
    · exact ⟨fun ht => by simp [disabledSummary] at ht, fun _ => ⟨rfl, rfl⟩⟩
    · exact ⟨fun _ => rfl, fun hf => by simp [noItemsSummary] at hf⟩
    · exact ⟨fun ht => by simp [execFailSummary] at ht, fun _ => ⟨rfl, rfl⟩⟩
    · refine ⟨fun _ => ?_, fun hf => by simp [runSummary] at hf⟩
      exact (length_filter_add_not (fun r => r.success) (combinedResults cfg h items)).symm
  · intro cfg registry ops
    rcases batchProcessModel_cases cfg registry ops with hs | hs | ⟨msg, hs⟩ | hs <;> rw [hs]
    · exact ⟨fun ht => by simp [disabledSummary] at ht, fun _ => ⟨rfl, rfl⟩⟩
    · exact ⟨fun _ => rfl, fun hf => by simp [noOpsSummary] at hf⟩
    · exact ⟨fun ht => by simp [execFailSummary] at ht, fun _ => ⟨rfl, rfl⟩⟩
    · refine ⟨fun _ => ?_, fun hf => by simp [mergedSummary] at hf⟩
      have hle := List.length_filter_le (fun r => r.success) (mergedResults cfg registry ops)
      simp only [mergedSummary]
      omega

/-- Claim C1 witness: the amended statement applied to a concrete empty
call and to a concrete failing `batchProcess` call. -/
theorem summary_counts_consistent_check :
    (noItemsSummary.operations = noItemsSummary.succeeded + noItemsSummary.failed) ∧
    (batchProcessModel cfgStd reg0 [{ type := "update", data := JSVal.null }]).operations = 0 ∧
    (batchProcessModel cfgStd reg0 [{ type := "update", data := JSVal.null }]).succeeded = 0 := by
  refine ⟨(summary_counts_consistent.1 cfgStd (some h0) [] noItemsSummary rfl).1 rfl, ?_, ?_⟩
  · exact ((summary_counts_consistent.2 cfgStd reg0
      [{ type := "update", data := JSVal.null }]).2 (by decide)).1
  · exact ((summary_counts_consistent.2 cfgStd reg0
      [{ type := "update", data := JSVal.null }]).2 (by decide)).2

/-! ### Claim C2 -/

/-- Claim C2 fails as stated: for an unregistered operation kind the
`Unknown operation type` throw sits before the try block and escapes
`execute` as an exception. -/
theorem execute_unknown_kind_throws :
    executeModel cfgStd none [JSVal.num 1] = .error "Unknown operation type" := rfl

/-- Claim C2, amended: for every registered operation kind and every item
list, `execute` never lets an exception escape — it always returns a
summary; for an unregistered kind (with the engine enabled) it instead
fails fast by throwing `Unknown operation type`. -/
theorem execute_registered_never_throws :
    (∀ (cfg : SchedConfig) (h : Handler) (items : List JSVal),
      ∃ s, executeModel cfg (some h) items = .ok s) ∧
    (∀ (cfg : SchedConfig) (items : List JSVal), cfg.enabled = true →
      executeModel cfg none items = .error "Unknown operation type") := by
  constructor
  · exact executeModel_total
  · intro cfg items hen
    unfold executeModel
    rw [hen]
    rfl

/-- Claim C2 witness: the amended statement applied at a concrete
unregistered-kind call. -/
theorem execute_registered_never_throws_check :
    executeModel cfgStd none [JSVal.num 2] = .error "Unknown operation type" :=
  execute_registered_never_throws.2 cfgStd [JSVal.num 2] rfl

/-! ### Claim C3 -/

/-- Claim C3 fails as stated: a disabled engine does not return a trivial
success summary — it returns `success = false` with a populated `error`
field. -/
theorem execute_disabled_failure_summary :
    executeModel cfgOff (some h0) [JSVal.num 1] = .ok disabledSummary ∧
    disabledSummary.success = false ∧
    disabledSummary.error = some "Batch operations are disabled" :=
  ⟨rfl, rfl, rfl⟩

/-- Claim C3, amended: if the engine is disabled, `execute` returns a
zero-count summary with `success = false` and the error message
`Batch operations are disabled`; if the engine is enabled, the kind is
registered, and the item list is empty, it returns the trivial success
summary with zero counts. -/
theorem execute_disabled_and_empty_paths :
    (∀ (cfg : SchedConfig) (h? : Option Handler) (items : List JSVal), cfg.enabled = false →
      executeModel cfg h? items = .ok disabledSummary) ∧
    (∀ (cfg : SchedConfig) (h : Handler), cfg.enabled = true →
      executeModel cfg (some h) [] = .ok noItemsSummary) := by
  constructor
  · intro cfg h? items hen
    unfold executeModel
    rw [hen]
    rfl
  · intro cfg h hen
    unfold executeModel
    rw [hen]
    rfl

/-- Claim C3 witness: the amended statement applied at concrete disabled
and empty calls. -/
theorem execute_disabled_and_empty_paths_check :
    executeModel cfgOff (some h0) [JSVal.num 2] = .ok disabledSummary ∧
    executeModel cfgStd (some h0) [] = .ok noItemsSummary :=
  ⟨execute_disabled_and_empty_paths.1 cfgOff (some h0) [JSVal.num 2] rfl,
   execute_disabled_and_empty_paths.2 cfgStd h0 rfl⟩

/-! ### Claim C4 -/

/-- Claim C4: for every non-empty item list and registered handler that
yields one (item-echoing) result per item, the summary holds exactly one
`ItemResult` per input item, `results[i].item` corresponds to `items[i]`,
and the assembled result list is independent of the order in which the
batch tasks complete, because each batch writes only its pre-assigned
index slot. -/
theorem execute_results_one_per_item (cfg : SchedConfig) (h : Handler) (items : List JSVal)
    (hen : cfg.enabled = true) (hb : 0 < cfg.batchSize) (_hmc : 0 < cfg.maxConcurrent)
    (hne : items ≠ []) (hval : h.validate items = true)
    (hgood : ∀ (b : List JSVal) (rs : List ItemResult),
      h.execute b = .ok rs → rs.map (fun r => r.item) = b) :
    executeModel cfg (some h) items = .ok (runSummary cfg h items) ∧
    (runSummary cfg h items).results = some (combinedResults cfg h items) ∧
    (combinedResults cfg h items).length = items.length ∧
    (combinedResults cfg h items).map (fun r => r.item) = items ∧
    ∀ order : List ℕ,
      order.Perm (List.range (chunkList cfg.batchSize items).length) →
      (parallelResults
          (fun i => processBatch cfg.retryAttempts h ((chunkList cfg.batchSize items).getD i []))
          (chunkList cfg.batchSize items).length order).flatten =
        combinedResults cfg h items := by
  refine ⟨executeModel_run cfg h items hen hne hval, rfl,
    combinedResults_length cfg h items hb hgood,
    combinedResults_echo cfg h items hb hgood, ?_⟩
  intro order hperm
  rw [parallelResults_perm _ _ order hperm]
  unfold combinedResults
  congr 1
  exact map_getD_range (processBatch cfg.retryAttempts h) (chunkList cfg.batchSize items)

/-- Claim C4 witness: three items processed in batches of two with the
custom handler, the two batch tasks completing in reversed order. -/
theorem execute_results_one_per_item_check :
    executeModel cfgW (some h0) [JSVal.num 1, JSVal.num 2, JSVal.num 3] =
      .ok (runSummary cfgW h0 [JSVal.num 1, JSVal.num 2, JSVal.num 3]) ∧
    (combinedResults cfgW h0 [JSVal.num 1, JSVal.num 2, JSVal.num 3]).length = 3 ∧
    (combinedResults cfgW h0 [JSVal.num 1, JSVal.num 2, JSVal.num 3]).map (fun r => r.item) =
      [JSVal.num 1, JSVal.num 2, JSVal.num 3] ∧
    (parallelResults
        (fun i => processBatch cfgW.retryAttempts h0
          ((chunkList cfgW.batchSize [JSVal.num 1, JSVal.num 2, JSVal.num 3]).getD i []))
        (chunkList cfgW.batchSize [JSVal.num 1, JSVal.num 2, JSVal.num 3]).length
        [1, 0]).flatten =
      combinedResults cfgW h0 [JSVal.num 1, JSVal.num 2, JSVal.num 3] := by
  have H := execute_results_one_per_item cfgW h0 [JSVal.num 1, JSVal.num 2, JSVal.num 3]
    rfl (by decide) (by decide) (by simp) rfl (customHandler_good opts0).2
  exact ⟨H.1, H.2.2.1, H.2.2.2.1, H.2.2.2.2 [1, 0] (by decide)⟩

/-! ### Claim C5 -/

/-- Claim C5: for every item list of length `n` and batch size `b > 0`,
the partition consists of `ceil(n/b)` contiguous, order-preserving batches
(their concatenation is the input), every batch but possibly the last has
exactly `b` items, and the last batch has `n - b * floor(n/b)` items, or
`b` when `n` is an exact multiple of `b`. -/
theorem execute_batch_partition {α : Type} (b : ℕ) (hb : 0 < b) (l : List α) :
    (chunkList b l).length = (l.length + b - 1) / b ∧
    (chunkList b l).flatten = l ∧
    (∀ c ∈ (chunkList b l).dropLast, c.length = b) ∧
    (∀ c, (chunkList b l).getLast? = some c →
      c.length = if b ∣ l.length then b else l.length - b * (l.length / b)) := by
  refine ⟨chunkList_length b hb l, chunkList_flatten b hb l, chunkList_dropLast b hb l, ?_⟩
  intro c hc
  have h1 := chunkList_getLast b hb l c hc
  have h2 := Nat.div_add_mod l.length b
  by_cases hdvd : b ∣ l.length
  · have hm : l.length % b = 0 := (Nat.dvd_iff_mod_eq_zero).mp hdvd
    rw [if_pos hdvd]
    rw [hm, if_pos rfl] at h1
    exact h1
  · have hm : l.length % b ≠ 0 := fun h => hdvd ((Nat.dvd_iff_mod_eq_zero).mpr h)
    rw [if_neg hdvd]
    rw [if_neg hm] at h1
    omega

/-- Claim C5 witness: five items in batches of two partition as
`[[1,2],[3,4],[5]]`. -/
theorem execute_batch_partition_check :
    (chunkList 2 ([1, 2, 3, 4, 5] : List ℕ)).length = (5 + 2 - 1) / 2 ∧
    (chunkList 2 ([1, 2, 3, 4, 5] : List ℕ)).flatten = [1, 2, 3, 4, 5] ∧
    ([1, 2] : List ℕ).length = 2 ∧
    ([5] : List ℕ).length = if 2 ∣ 5 then 2 else 5 - 2 * (5 / 2) := by
  have H := execute_batch_partition 2 (by decide) ([1, 2, 3, 4, 5] : List ℕ)
  exact ⟨H.1, H.2.1, H.2.2.1 [1, 2] (by decide), H.2.2.2 [5] (by decide)⟩

/-! ### Claim C6 -/

/-- Claim C6: a handler invocation that throws on every attempt is invoked
exactly `retryAttempts` times, never more; the last error then propagates
to the batch task, which marks every item of the batch failed with the
batch-level error message. -/
theorem retry_exact_attempts (fn : ℕ → Except String (List ItemResult)) (err : ℕ → String)
    (m : ℕ) (hm : 1 ≤ m) (hfail : ∀ k, fn k = .error (err k)) :
    (executeWithRetry fn m).1 = m ∧
    (executeWithRetry fn m).2 = .error (some (err m)) ∧
    ∀ (h : Handler) (batch : List JSVal) (e : String), h.execute batch = .error e →
      processBatch m h batch = batch.map (failedResult e) := by
  refine ⟨?_, ?_, ?_⟩
  · rw [executeWithRetry_fail fn err hfail m hm]
  · rw [executeWithRetry_fail fn err hfail m hm]
  · intro h batch e he
    exact processBatch_err m h batch e hm he

/-- Claim C6 witness: an always-failing function under the default three
attempts, and a batch of one item failed with the batch error. -/
theorem retry_exact_attempts_check :
    (executeWithRetry (fun k => .error ("fail " ++ toString k)) 3).1 = 3 ∧
    (executeWithRetry (fun k => .error ("fail " ++ toString k)) 3).2 =
      .error (some ("fail " ++ toString 3)) ∧
    processBatch 3 { validate := baseValidate, execute := fun _ => .error "boom" }
        [JSVal.num 1] =
      [JSVal.num 1].map (failedResult "boom") := by
  have H := retry_exact_attempts (fun k => .error ("fail " ++ toString k))
    (fun k => "fail " ++ toString k) 3 (by decide) (fun _ => rfl)
  exact ⟨H.1, H.2.1, H.2.2 { validate := baseValidate, execute := fun _ => .error "boom" }
    [JSVal.num 1] "boom" rfl⟩

/-! ### Claim C7 -/

/-- Claim C7: for every failed attempt `k` with `1 ≤ k`, the backoff delay
before the next attempt equals `baseDelay * 1.5^(k-1) * jitter` with
`jitter = rand * 0.3 + 0.85`, and for every possible random draw
`0 ≤ rand < 1` the delay lies within
`baseDelay * 1.5^(k-1) * [0.85, 1.15]`. -/
theorem retry_backoff_delay_bounds (delay r : ℚ) (k : ℕ) (_hk : 1 ≤ k) (hd : 0 ≤ delay)
    (hr0 : 0 ≤ r) (hr1 : r < 1) :
    backoffDelay delay k r = delay * (3 / 2) ^ (k - 1) * jitterOf r ∧
    delay * (3 / 2) ^ (k - 1) * (85 / 100) ≤ backoffDelay delay k r ∧
    backoffDelay delay k r ≤ delay * (3 / 2) ^ (k - 1) * (115 / 100) := by
  have hbase : (0 : ℚ) ≤ delay * (3 / 2) ^ (k - 1) := by positivity
  have hjl : (85 / 100 : ℚ) ≤ jitterOf r := by
    unfold jitterOf
    nlinarith
  have hju : jitterOf r ≤ 115 / 100 := by
    unfold jitterOf
    nlinarith
  exact ⟨rfl, mul_le_mul_of_nonneg_left hjl hbase, mul_le_mul_of_nonneg_left hju hbase⟩

/-- Claim C7 witness: base delay 1000, second attempt, random draw 1/2. -/
theorem retry_backoff_delay_bounds_check :
    backoffDelay 1000 2 (1 / 2) = 1000 * (3 / 2) ^ (2 - 1) * jitterOf (1 / 2) ∧
    1000 * (3 / 2) ^ (2 - 1) * (85 / 100) ≤ backoffDelay 1000 2 (1 / 2) ∧
    backoffDelay 1000 2 (1 / 2) ≤ 1000 * (3 / 2) ^ (2 - 1) * (115 / 100) :=
  retry_backoff_delay_bounds 1000 (1 / 2) 2 (by norm_num) (by norm_num) (by norm_num)
    (by norm_num)

/-! ### Claim C8 -/

/-- Claim C8: for each of the four handlers, a thrown repository/processor
call on one item is captured into that item's result as `success = false`
with the error message, and the handler still processes every other item —
each `execute` is exactly the per-item map, so one bad item never aborts
its batch or affects sibling results. -/
theorem handlers_isolate_item_errors :
    (∀ (c : JSVal → Except String JSVal) (vi : Option (JSVal → ValidationOutcome))
        (items : List JSVal),
      createExecute { repository := some { create := some c }, validateItem := vi } items =
        .ok (items.map (createPerItem c vi)) ∧
      ∀ (item : JSVal) (m : String), applyValidator vi item = none → c item = .error m →
        createPerItem c vi item = { success := false, error := some m, item := item }) ∧
    (∀ (u : JSVal → JSVal → Except String JSVal) (vi : Option (JSVal → ValidationOutcome))
        (idf : String) (items : List JSVal),
      updateExecute
          { repository := some { update := some u }
            validateItem := vi
            idField := idf } items =
        .ok (items.map (updatePerItem u vi idf)) ∧
      ∀ (item idv : JSVal) (m : String), item.getField idf = .ok idv → idv.truthy = true →
        applyValidator vi item = none → u idv item = .error m →
        updatePerItem u vi idf item = { success := false, error := some m, item := item }) ∧
    (∀ (d : JSVal → Except String JSVal) (idf : String) (items : List JSVal),
      deleteExecute { repository := some { delete := some d }, idField := idf } items =
        .ok (items.map (deletePerItem d idf)) ∧
      ∀ (item idv : JSVal) (m : String), deleteIdOf idf item = .ok idv → idv.truthy = true →
        d idv = .error m →
        deletePerItem d idf item = { success := false, error := some m, item := item }) ∧
    (∀ (p : JSVal → Except String JSVal) (items : List JSVal),
      customExecute { processor := some p } items = .ok (items.map (customPerItem p)) ∧
      ∀ (item : JSVal) (m : String), p item = .error m →
        customPerItem p item = { success := false, error := some m, item := item }) := by
  refine ⟨?_, ?_, ?_, ?_⟩
  · intro c vi items
    refine ⟨rfl, ?_⟩
    intro item m hv hc
    unfold createPerItem
    rw [hv, hc]
    rfl
  · intro u vi idf items
    refine ⟨rfl, ?_⟩
    intro item idv m hid ht hv hu
    unfold updatePerItem
    rw [hid]
    simp [ht, hv, hu, handleErrorResult]
  · intro d idf items
    refine ⟨rfl, ?_⟩
    intro item idv m hid ht hd
    unfold deletePerItem
    rw [hid]
    simp [ht, hd, handleErrorResult]
  · intro p items
    refine ⟨rfl, ?_⟩
    intro item m hp
    unfold customPerItem
    rw [hp]
    rfl

/-- Claim C8 witness: each per-item error capture at a concrete throwing
collaborator, plus the create handler mapped over a one-item batch. -/
theorem handlers_isolate_item_errors_check :
    createExecute
        { repository := some { create := some (fun _ => Except.error "boom") } }
        [JSVal.num 1] =
      .ok ([JSVal.num 1].map (createPerItem (fun _ => Except.error "boom") none)) ∧
    createPerItem (fun _ => Except.error "boom") none (JSVal.num 1) =
      { success := false, error := some "boom", item := JSVal.num 1 } ∧
    updatePerItem (fun _ _ => Except.error "boom") none "id"
        (JSVal.obj [("id", JSVal.num 7)]) =
      { success := false, error := some "boom", item := JSVal.obj [("id", JSVal.num 7)] } ∧
    deletePerItem (fun _ => Except.error "boom") "id" (JSVal.obj [("id", JSVal.num 7)]) =
      { success := false, error := some "boom", item := JSVal.obj [("id", JSVal.num 7)] } ∧
    customPerItem (fun _ => Except.error "boom") (JSVal.num 1) =
      { success := false, error := some "boom", item := JSVal.num 1 } := by
  have H := handlers_isolate_item_errors
  exact ⟨(H.1 (fun _ => Except.error "boom") none [JSVal.num 1]).1,
    (H.1 (fun _ => Except.error "boom") none [JSVal.num 1]).2 (JSVal.num 1) "boom" rfl rfl,
    (H.2.1 (fun _ _ => Except.error "boom") none "id" []).2 (JSVal.obj [("id", JSVal.num 7)])
      (JSVal.num 7) "boom" rfl rfl rfl rfl,
    (H.2.2.1 (fun _ => Except.error "boom") "id" []).2 (JSVal.obj [("id", JSVal.num 7)])
      (JSVal.num 7) "boom" rfl rfl rfl,
    (H.2.2.2 (fun _ => Except.error "boom") []).2 (JSVal.num 1) "boom" rfl⟩

/-! ### Claim C9 -/

/-- Claim C9 fails as stated: a descriptor carrying a kind and a data value
whose kind is unregistered makes the per-kind `execute` reject, so the
whole call lands in the catch block and the summary reports
`operations = 0`, not the number of descriptors. -/
theorem batchProcess_unknown_kind_zero_operations :
    (batchProcessModel cfgStd reg0
        [{ type := "nonexistent", data := JSVal.num 5 }]).operations = 0 ∧
    (batchProcessModel cfgStd reg0
        [{ type := "nonexistent", data := JSVal.num 5 }]).operations ≠ 1 := by
  constructor <;> decide

/-- Claim C9, amended: for every non-empty descriptor list whose kinds are
all registered (to handlers that echo one result per item, as the standard
four do) and whose `type`/`data` fields are truthy, `batchProcess` groups
the data values by kind, invokes `execute` once per distinct kind, and
returns one merged summary whose `operations` count equals the total
number of input descriptors. -/
theorem batchProcess_merged_operations_count (cfg : SchedConfig)
    (registry : String → Option Handler) (ops : List MixedOp)
    (hen : cfg.enabled = true) (hb : 0 < cfg.batchSize) (hne : ops ≠ [])
    (hops : ∀ op ∈ ops, op.type ≠ "" ∧ op.data.truthy = true)
    (hreg : ∀ op ∈ ops, ∃ h, registry op.type = some h ∧ GoodHandler h) :
    batchProcessModel cfg registry ops = mergedSummary cfg registry ops ∧
    (batchProcessModel cfg registry ops).success = true ∧
    (batchProcessModel cfg registry ops).operations = ops.length := by
  have hrun := batchProcessModel_run cfg registry ops hen hne hops hreg
  have hlen := mergedResults_length cfg registry ops hen hb hreg
  refine ⟨hrun, ?_, ?_⟩
  · rw [hrun]
    rfl
  · rw [hrun]
    exact hlen

/-- Claim C9 witness: the spec scenario — one create descriptor and one
delete descriptor merge into a summary with `operations = 2`. -/
theorem batchProcess_merged_operations_count_check :
    (batchProcessModel cfgW reg0
        [{ type := "create", data := JSVal.obj [("x", JSVal.num 1)] },
         { type := "delete", data := JSVal.num 5 }]).success = true ∧
    (batchProcessModel cfgW reg0
        [{ type := "create", data := JSVal.obj [("x", JSVal.num 1)] },
         { type := "delete", data := JSVal.num 5 }]).operations = 2 := by
  have H := batchProcess_merged_operations_count cfgW reg0
    [{ type := "create", data := JSVal.obj [("x", JSVal.num 1)] },
     { type := "delete", data := JSVal.num 5 }]
    rfl (by decide) (by simp)
    (by
      intro op hop
      simp only [List.mem_cons, List.mem_singleton] at hop
      rcases hop with rfl | rfl | h
      · exact ⟨by decide, rfl⟩
      · exact ⟨by decide, rfl⟩
      · exact absurd h (List.not_mem_nil op))
    (by
      intro op hop
      simp only [List.mem_cons, List.mem_singleton] at hop
      rcases hop with rfl | rfl | h
      · exact ⟨createHandler opts0, rfl, createHandler_good opts0⟩
      · exact ⟨deleteHandler opts0, rfl, deleteHandler_good opts0⟩
      · exact absurd h (List.not_mem_nil op))
  exact ⟨H.2.1, H.2.2⟩

/-! ### Claim C10 -/

/-- Claim C10: an identifier field that is present but holds a falsy value
(0, the empty string, null, or false) makes the update and delete handlers
produce a failed missing-identifier result for that item; the result is the
same for every repository, so the repository is never consulted. -/
theorem falsy_identifier_rejected :
    (∀ (u : JSVal → JSVal → Except String JSVal) (vi : Option (JSVal → ValidationOutcome))
        (idf : String) (item idv : JSVal), item.getField idf = .ok idv →
      idv.truthy = false →
      updatePerItem u vi idf item =
        { success := false, error := some ("Item is missing " ++ idf ++ " field"),
          item := item }) ∧
    (∀ (d : JSVal → Except String JSVal) (idf : String) (item idv : JSVal),
      deleteIdOf idf item = .ok idv → idv.truthy = false →
      deletePerItem d idf item =
        { success := false, error := some ("Item is missing " ++ idf ++ " field"),
          item := item }) := by
  constructor
  · intro u vi idf item idv hid ht
    unfold updatePerItem
    rw [hid]
    simp [ht]
  · intro d idf item idv hid ht
    unfold deletePerItem
    rw [hid]
    simp [ht]

/-- Claim C10 witness: an `id` field holding `0` (update) and an `id` field
holding the empty string (delete). -/
theorem falsy_identifier_rejected_check :
    updatePerItem (fun _ _ => Except.ok JSVal.null) none "id"
        (JSVal.obj [("id", JSVal.num 0)]) =
      { success := false, error := some ("Item is missing " ++ "id" ++ " field"),
        item := JSVal.obj [("id", JSVal.num 0)] } ∧
    deletePerItem (fun _ => Except.ok JSVal.null) "id"
        (JSVal.obj [("id", JSVal.str "")]) =
      { success := false, error := some ("Item is missing " ++ "id" ++ " field"),
        item := JSVal.obj [("id", JSVal.str "")] } :=
  ⟨falsy_identifier_rejected.1 (fun _ _ => Except.ok JSVal.null) none "id"
      (JSVal.obj [("id", JSVal.num 0)]) (JSVal.num 0) rfl rfl,
   falsy_identifier_rejected.2 (fun _ => Except.ok JSVal.null) "id"
      (JSVal.obj [("id", JSVal.str "")]) (JSVal.str "") rfl rfl⟩

end BatchOps
